import Mathlib

/-!
# Verification of the Warp agentic-orchestrator against its specification

Shallow embedding of the two orchestration servers of this repository:

* `router_mcp.py` — the open-loop auto-loop router (`route_task`, the ack
  protocol, the audit sink);
* `taskrouter_mcp.py` — the closed-loop workflow tracker
  (`initialize_workflow`, `process_step_completion`, `WorkflowState`);
* `taskrouter_mpc.py` — the stdio forwarder exposing the `route` tool.

Conventions of the embedding:

* Python strings are Lean `String`s; the character-level workhorses operate
  on `List Char` (`String.data`).  Python's `str.strip` / `\s` strip the
  ASCII whitespace family; we model whitespace with `Char.isWhitespace`
  (space, tab, CR, LF), which agrees with Python on all inputs appearing in
  this development.  `str.splitlines` is modelled on the `\n` / `\r` /
  `\r\n` line boundaries.
* Wall-clock timestamps (`ts()`, `time.time()`) are environmental; audit
  events and narrative lines are modelled by their payloads, without the
  timestamp field, and the id-synthesis helper takes the current epoch
  second as an explicit argument.
* File appends (`router_log.jsonl`, `build-summary.md`, `CHANGELOG.md`)
  are modelled as lists of structured events/narrative records accumulated
  in program order; JSON serialisation of responses is modelled by the
  corresponding structured values.
* The two Warp integration hooks (`call_sub_agent`,
  `call_taskrouter_next_step`) are external collaborators; `route_task` is
  parameterised by them as functions from the invocation index and the
  call arguments to the returned text.
* A Python exception escaping the handler (`HTTPException`, `IndexError`)
  is an `Except.error` result; writes performed before the raise are kept,
  as the real file appends are.
-/

namespace Orchestrator

/-! ## Character-level utilities (Python string primitives) -/

/-- Whitespace, as stripped by Python's `str.strip()` and matched by `\s`. -/
def isWS (c : Char) : Bool := c.isWhitespace

/-- Drop trailing elements satisfying `p`. -/
def dropTrailing (p : Char → Bool) (l : List Char) : List Char :=
  (l.reverse.dropWhile p).reverse

/-- Python `str.strip()` on the character list. -/
def stripL (l : List Char) : List Char :=
  dropTrailing isWS (l.dropWhile isWS)

/-- Python `str.strip()`. -/
def stripStr (s : String) : String := String.mk (stripL s.data)

/-- Python `str.upper()` (character map; sufficient for the ASCII marker
checks of the router). -/
def upperStr (s : String) : String := String.mk (s.data.map Char.toUpper)

/-- Accumulating worker for `str.splitlines`: `acc` holds the current line
reversed; a line boundary (`\r\n`, `\r` or `\n`) ends a line, and a
boundary at the end of the input does not open a final empty line. -/
def splitLinesAux (acc : List Char) : List Char → List (List Char)
  | [] => [acc.reverse]
  | '\r' :: '\n' :: [] => [acc.reverse]
  | '\r' :: '\n' :: c :: r => acc.reverse :: splitLinesAux [] (c :: r)
  | '\r' :: [] => [acc.reverse]
  | '\r' :: c :: r => acc.reverse :: splitLinesAux [] (c :: r)
  | '\n' :: [] => [acc.reverse]
  | '\n' :: c :: r => acc.reverse :: splitLinesAux [] (c :: r)
  | c :: r => splitLinesAux (c :: acc) r

/-- Python `str.splitlines()` (on the `\n` / `\r` / `\r\n` boundaries):
`""` gives `[]`, a trailing line boundary does not produce a final empty
line. -/
def splitLinesCore (l : List Char) : List (List Char) :=
  match l with
  | [] => []
  | c :: r => splitLinesAux [] (c :: r)

/-- `(s or "").splitlines()[0].strip()`, fallibly: `none` is the
`IndexError` raised on an empty response. -/
def firstLine (s : String) : Option String :=
  match splitLinesCore s.data with
  | [] => none
  | l :: _ => some (String.mk (stripL l))

/-- First occurrence search: the suffix just after the first occurrence of
`m` in `l`, or `none` when `m` does not occur. -/
def afterM (m : List Char) : List Char → Option (List Char)
  | [] => if m = [] then some [] else none
  | c :: t =>
    if m.isPrefixOf (c :: t) then some ((c :: t).drop m.length)
    else afterM m t

/-- The suffix of `g` after the first occurrence of the marker `m`. -/
def afterMarker (m g : String) : Option String :=
  (afterM m.data g.data).map String.mk

/-! ## `router_mcp.py`: configuration tables -/

/-- `SUB_AGENTS`: human routing name → Warp profile key.  The Python dict
has distinct keys, so the lookup is an if-chain. -/
def subAgentKey (a : String) : Option String :=
  if a = "FileCreator" then some "file-creator"
  else if a = "GitWorkflow" then some "git-workflow"
  else if a = "TestRunner" then some "test-runner"
  else if a = "FrontendDeveloper" then some "frontend-developer"
  else if a = "BackendDeveloper" then some "backend-developer"
  else if a = "UIDesigner" then some "ui-designer"
  else if a = "SprintPrioritizer" then some "sprint-prioritizer"
  else if a = "RapidPrototyper" then some "rapid-prototyper"
  else if a = "UXResearcher" then some "ux-researcher"
  else none

/-- `RULE_TITLES`: Warp Rule title applied per sub-agent (`.get`). -/
def ruleTitle (a : String) : Option String :=
  if a = "FileCreator" then some "FileCreator — File Ops Policy"
  else if a = "GitWorkflow" then some "GitWorkflow — Safe Git Policy"
  else if a = "TestRunner" then some "TestRunner — Testing Policy"
  else if a = "FrontendDeveloper" then some "FrontendDeveloper — UI Policy"
  else if a = "BackendDeveloper" then some "BackendDeveloper — API Policy"
  else if a = "UIDesigner" then some "UIDesigner — Design Artifacts Policy"
  else if a = "UXResearcher" then some "UXResearcher — Research Artifacts Policy"
  else if a = "SprintPrioritizer" then some "SprintPrioritizer — Planning Policy"
  else if a = "RapidPrototyper" then some "RapidPrototyper — Prototype Policy"
  else none

/-! ## `router_mcp.py`: routing-line grammar and guarded instruction -/

/-- A character of the `[A-Za-z0-9_-]` class of `ROUTING_LINE_RE`. -/
def isNameChar (c : Char) : Bool := c.isAlpha || c.isDigit || c == '_' || c == '-'

/-- Matcher for `ROUTING_LINE_RE = ^\s*([A-Za-z][A-Za-z0-9_-]+)\s*:\s*(.+)$`
(`re.DOTALL`), applied to an already-stripped character list: an agent name
(letter followed by at least one name character), optional whitespace, a
colon, optional whitespace, then a non-empty instruction. -/
def parseCore (l : List Char) : Option (List Char × List Char) :=
  match l.dropWhile isWS with
  | [] => none
  | c :: rest =>
    if c.isAlpha then
      let run := rest.takeWhile isNameChar
      if run.isEmpty then none
      else
        match (rest.dropWhile isNameChar).dropWhile isWS with
        | ':' :: rest3 =>
          let body := rest3.dropWhile isWS
          if body.isEmpty then none else some (c :: run, body)
        | _ => none
    else none

/-- `parse_routing_line(task)`: `(sub_agent, instruction)` or `none`
(the Python function raises HTTP 400 on `none`). -/
def parse_routing_line (task : String) : Option (String × String) :=
  (parseCore (stripL task.data)).map (fun p => (String.mk p.1, String.mk p.2))

/-- The lines of the guarded instruction that precede the final blank line
and the task line, already joined by newlines. -/
def guardPrefix (subAgent title : String) : String :=
  subAgent ++ ": Verify you are the \"" ++ subAgent ++ "\" agent.\n" ++
  "Then apply Warp Rule \"" ++ title ++ "\".\n" ++
  "Respond EXACTLY on a single line with:\n" ++
  "rules loaded (agent=" ++ subAgent ++ " | rule=" ++ title ++ ")\n" ++
  "\n" ++
  "After that acknowledgment, proceed with the task below.\n"

/-- `guard_instruction(sub_agent, raw_instruction)`: the `"\n".join(lines)`
of the source, written as the equivalent concatenation (the rule title is
present for every rostered agent, absent otherwise). -/
def guard_instruction (subAgent raw : String) : String :=
  match ruleTitle subAgent with
  | some title => guardPrefix subAgent title ++ "\n" ++ "Task: " ++ raw
  | none =>
      subAgent ++ ": Verify you are the \"" ++ subAgent ++ "\" agent.\n" ++
      "Task: " ++ raw

/-! ## `router_mcp.py`: acknowledgment grammar -/

/-- Matcher for
`ACK_PATTERN = ^rules loaded \(agent=(?P<agent>[^|]+)\s*\|\s*rule=(?P<rule>.+)\)$`:
returns the raw `agent` and `rule` groups.  The greedy `[^|]+` captures
everything up to the first `|` (so the whitespace before the bar stays in
the group), and the greedy `(.+)\)$` makes the rule group everything up to
the final `)`, which must end the line. -/
def ackMatch (s : String) : Option (String × String) :=
  let pre := "rules loaded (agent=".data
  if pre.isPrefixOf s.data then
    let rest := s.data.drop pre.length
    let ag := rest.takeWhile (fun c => c != '|')
    if ag.isEmpty then none
    else
      match rest.dropWhile (fun c => c != '|') with
      | '|' :: rest3 =>
        let rest4 := rest3.dropWhile isWS
        let pr := "rule=".data
        if pr.isPrefixOf rest4 then
          match (rest4.drop pr.length).reverse with
          | ')' :: rev => if rev.isEmpty then none else some (String.mk ag, String.mk rev.reverse)
          | _ => none
        else none
      | _ => none
  else none

/-- `ok_ack`: the first line matches `ACK_PATTERN` and the stripped groups
equal the routed agent and its rule title (`RULE_TITLES[sub_agent]`). -/
def ackOk (agent fl : String) : Bool :=
  match ackMatch fl with
  | none => false
  | some (ag, ru) => stripStr ag == agent && ruleTitle agent == some (stripStr ru)

/-- The `expected` field of the `warn` event:
`rules loaded (agent={sub_agent} | rule={RULE_TITLES.get(sub_agent, '')})`. -/
def expectedAck (agent : String) : String :=
  "rules loaded (agent=" ++ agent ++ " | rule=" ++ ((ruleTitle agent).getD "") ++ ")"

/-- `task.upper().startswith("DONE")` (callers pass the stripped task). -/
def doneCheck (s : String) : Bool := "DONE".data.isPrefixOf (upperStr s).data

/-- Python slicing `s[:n]` (by code points). -/
def pyTake (s : String) (n : Nat) : String := String.mk (s.data.take n)

/-! ## `router_mcp.py`: audit sink and request/response model -/

/-- A `router_log.jsonl` record, by its `type` field and payload (the
`ts` timestamp is environmental and omitted).  `unknown_agent` is listed in
the specification's event taxonomy; the router never emits it (claim C2). -/
inductive Event where
  | step (wid : String) (n : Nat) (agent instruction : String)
  | agent_response (wid agent preview : String)
  | warn (wid agent expected received : String)
  | done (wid summary : String)
  | stopped_max_steps (wid summary : String)
  | unknown_agent (wid agent : String)
  deriving DecidableEq, Repr

/-- A narrative-log line: `md_step_line` appended to `build-summary.md`,
and the two blocks `finalize_markdown` appends to `build-summary.md` and
`CHANGELOG.md`. -/
inductive Narrative where
  | stepLine (wid : String) (n : Nat) (agent instruction : String)
  | finalSummary (wid summary : String)
  | changelogEntry (wid summary : String)
  deriving DecidableEq, Repr

/-- A Python exception escaping `route_task`: `HTTPException(status,
detail)` or the `IndexError` of an out-of-range `[...]`. -/
inductive RouteError where
  | http (status : Nat) (detail : String)
  | indexError
  deriving DecidableEq, Repr

/-- The `RouteResponse` pydantic model. -/
structure RouteResponse where
  ok : Bool
  workflow_id : String
  step : Nat
  agent : Option String := none
  message : Option String := none
  done : Bool := false
  deriving DecidableEq, Repr

/-- The `RouteRequest` pydantic model, with its field defaults. -/
structure RouteRequest where
  task : String
  auto_loop : Bool := false
  workflow_id : Option String := none
  from_taskrouter : Bool := false
  deriving DecidableEq, Repr

instance : DecidableEq (Except RouteError RouteResponse) := fun a b =>
  match a, b with
  | .error e, .error e' => decidable_of_iff (e = e') (by simp)
  | .ok r, .ok r' => decidable_of_iff (r = r') (by simp)
  | .error _, .ok _ => isFalse (by simp)
  | .ok _, .error _ => isFalse (by simp)

/-- Everything one call of the `/route` handler produces: the HTTP result,
the audit-journal events and narrative lines appended (in order), and how
often the sub-agent hook was invoked (first attempts / ack retries). -/
structure RouteOutcome where
  response : Except RouteError RouteResponse
  events : List Event
  narrative : List Narrative
  primaryCalls : Nat
  retryCalls : Nat
  deriving DecidableEq, Repr

/-- The safety-cap summary `f"Stopped after {MAX_STEPS} steps (safety cap)."`. -/
def stoppedMsg (ms : Nat) : String := s!"Stopped after {ms} steps (safety cap)."

/-- The early-DONE summary
`request.task.strip().split("\n", 1)[1] if "\n" in request.task else ""`.
`none` is the `IndexError` raised when the containment check succeeds on
the raw task but stripping removed every newline. -/
def earlySummary (task : String) : Option String :=
  if task.data.contains '\n' then
    match (stripL task.data).dropWhile (fun c => c != '\n') with
    | '\n' :: r => some (String.mk r)
    | _ => none
  else some ""

/-- The loop-DONE summary
`next_task.split("\n", 1)[1] if "\n" in next_task else ""`; here check and
split use the same (already stripped) string, so no error is possible. -/
def loopSummary (nt : String) : String :=
  match nt.data.dropWhile (fun c => c != '\n') with
  | '\n' :: r => String.mk r
  | _ => ""

/-! ## `router_mcp.py`: workflow-id synthesis -/

/-- Python `str.lower()` (character map). -/
def lowerStr (s : String) : String := String.mk (s.data.map Char.toLower)

/-- A character kept by the kebab substitution (`[a-z0-9]`). -/
def isKeb (c : Char) : Bool := c.isLower || c.isDigit

/-- Worker for the kebab substitution; `inRun` is whether the previous
character already belonged to a replaced run. -/
def kebabAux (inRun : Bool) : List Char → List Char
  | [] => []
  | c :: t =>
    if isKeb c then c :: kebabAux false t
    else if inRun then kebabAux true t
    else '-' :: kebabAux true t

/-- `re.sub(r"[^a-z0-9]+", "-", s)`: each maximal run of other characters
becomes a single dash. -/
def kebabCore (l : List Char) : List Char := kebabAux false l

/-- `.strip("-")`. -/
def stripDashes (l : List Char) : List Char :=
  dropTrailing (fun c => c == '-') (l.dropWhile (fun c => c == '-'))

/-- `ensure_workflow_id`'s synthesised id
`f"wf-{base[:24]}-{int(time.time())}"`; the epoch second is a parameter. -/
def synthWorkflowId (task : String) (now : Nat) : String :=
  let base := String.mk (stripDashes (kebabCore (lowerStr task).data))
  "wf-" ++ pyTake base 24 ++ "-" ++ toString now

/-- `ensure_workflow_id(req)`: the given id when truthy (present and
non-empty), else the synthesised one. -/
def ensure_workflow_id (req : RouteRequest) (now : Nat) : String :=
  match req.workflow_id with
  | some w => if w.isEmpty then synthWorkflowId req.task now else w
  | none => synthWorkflowId req.task now

/-! ## `router_mcp.py`: the `/route` handler -/

/-- The TaskRouter kickoff enforcement
(`if request.from_taskrouter and request.auto_loop is False: request.auto_loop = True`):
the auto-loop flag actually used by the handler. -/
def effective_auto_loop (req : RouteRequest) : Bool :=
  if req.from_taskrouter && !req.auto_loop then true else req.auto_loop

/-- The rule-ack enforcement block (`router_mcp.py` lines 293–316): given
the first response `r1`, returns the `warn` events logged, the number of
retry invocations, and the response execution proceeds with (or the
`IndexError` of `splitlines()[0]` on an empty response).  `MAX_ACK_RETRY = 1`,
so on a mismatch exactly one warn is logged and one identical retry is
made, and the loop then proceeds regardless of the retry's ack status. -/
def ackPhase (enf : Bool) (wid agent : String) (inv : Nat → String → String → String)
    (invIdx : Nat) (key guarded r1 : String) :
    List Event × Nat × Except RouteError String :=
  if enf && (ruleTitle agent).isSome then
    match firstLine r1 with
    | none => ([], 0, .error .indexError)
    | some fl =>
      if ackOk agent fl then ([], 0, .ok r1)
      else
        let w := Event.warn wid agent (expectedAck agent) fl
        let r2 := inv (invIdx + 1) key guarded
        match firstLine r2 with
        | none => ([w], 1, .error .indexError)
        | some _ => ([w], 1, .ok r2)
  else ([], 0, .ok r1)

/-- The `while True` body of `route_task`.  `gas` is the remaining budget
before the safety cap: an iteration with counter `step` runs its body iff
`step ≤ MAX_STEPS`, so the loop entered at `step = 1` with `gas = MAX_STEPS`
reaches the cap exactly when `gas = 0`, at `step = MAX_STEPS + 1`.
`invIdx` / `orIdx` count the external hook calls made so far, so the hook
functions may answer differently on every call. -/
def routeLoop (ms : Nat) (enf : Bool) (inv orc : Nat → String → String → String)
    (wid : String) (autoLoop : Bool) :
    Nat → Nat → Nat → Nat → String → RouteOutcome
  | 0, step, _, _, _ =>
    { response := .ok { ok := true, workflow_id := wid, step := step,
                        message := some (stoppedMsg ms), done := true },
      events := [.stopped_max_steps wid (stoppedMsg ms)],
      narrative := [.finalSummary wid (stoppedMsg ms), .changelogEntry wid (stoppedMsg ms)],
      primaryCalls := 0, retryCalls := 0 }
  | gas + 1, step, invIdx, orIdx, task =>
    match parse_routing_line task with
    | none =>
      { response := .error (.http 400 "invalid_format: expected 'SubAgent: instruction'"),
        events := [], narrative := [], primaryCalls := 0, retryCalls := 0 }
    | some (agent, instr) =>
      match subAgentKey agent with
      | none =>
        { response := .error (.http 400 ("unknown_agent:" ++ agent)),
          events := [], narrative := [], primaryCalls := 0, retryCalls := 0 }
      | some key =>
        let guarded := guard_instruction agent instr
        let baseEvs : List Event := [.step wid step agent guarded]
        let baseNarr : List Narrative := [.stepLine wid step agent guarded]
        let r1 := inv invIdx key guarded
        let ack := ackPhase enf wid agent inv invIdx key guarded r1
        match ack.2.2 with
        | .error e =>
          { response := .error e, events := baseEvs ++ ack.1, narrative := baseNarr,
            primaryCalls := 1, retryCalls := ack.2.1 }
        | .ok resp =>
          let evResp := Event.agent_response wid agent (pyTake resp 4000)
          if !autoLoop then
            { response := .ok { ok := true, workflow_id := wid, step := step,
                                agent := some agent, message := some "step_complete",
                                done := false },
              events := baseEvs ++ ack.1 ++ [evResp], narrative := baseNarr,
              primaryCalls := 1, retryCalls := ack.2.1 }
          else
            let nt := stripStr (orc orIdx agent resp)
            if doneCheck nt then
              let fs := loopSummary nt
              { response := .ok { ok := true, workflow_id := wid, step := step,
                                  agent := some agent, message := some "done", done := true },
                events := baseEvs ++ ack.1 ++ [evResp, .done wid fs],
                narrative := baseNarr ++ [.finalSummary wid fs, .changelogEntry wid fs],
                primaryCalls := 1, retryCalls := ack.2.1 }
            else
              let rest := routeLoop ms enf inv orc wid autoLoop gas (step + 1)
                (invIdx + 1 + ack.2.1) (orIdx + 1) nt
              { response := rest.response,
                events := baseEvs ++ ack.1 ++ [evResp] ++ rest.events,
                narrative := baseNarr ++ rest.narrative,
                primaryCalls := 1 + rest.primaryCalls,
                retryCalls := ack.2.1 + rest.retryCalls }

/-- The `/route` handler `route_task(request)`, parameterised by the
configuration (`MAX_STEPS`, `ENFORCE_RULE_ACK`), the two Warp integration
hooks, and the current epoch second used for id synthesis. -/
def route_task (ms : Nat) (enf : Bool) (inv orc : Nat → String → String → String)
    (now : Nat) (req : RouteRequest) : RouteOutcome :=
  let wid := ensure_workflow_id req now
  let auto := effective_auto_loop req
  if doneCheck (stripStr req.task) then
    match earlySummary req.task with
    | none =>
      { response := .error .indexError, events := [], narrative := [],
        primaryCalls := 0, retryCalls := 0 }
    | some fs =>
      { response := .ok { ok := true, workflow_id := wid, step := 0,
                          message := some "done", done := true },
        events := [.done wid fs],
        narrative := [.finalSummary wid fs, .changelogEntry wid fs],
        primaryCalls := 0, retryCalls := 0 }
  else routeLoop ms enf inv orc wid auto ms 1 0 0 req.task

/-- The HTTP surface of `router_mcp.py`: the methods and paths registered
on the FastAPI app (`@APP.get("/health")`, `@APP.post("/route")`). -/
def routerEndpoints : List (String × String) := [("GET", "/health"), ("POST", "/route")]

/-! ## `taskrouter_mcp.py`: the closed-loop tracker -/

/-- One declared plan step (`steps[]` entry of `all_steps_json`). -/
structure StepDecl where
  step : Int
  agent_role : String
  policy : String
  instruction : String
  deriving DecidableEq, Repr

/-- An execution-log entry appended by `mark_step_completed`. -/
structure LogEntry where
  step : Int
  agent_role : String
  policy : String
  instruction : String
  status : String
  deriving DecidableEq, Repr

/-- The `WorkflowState` class: the stored plan (`all_steps`' fields),
completed-step set, execution log, and file manifest. -/
structure WorkflowState where
  workflow_id : String
  totalSteps : Int
  steps : List StepDecl
  originalGoal : Option String
  completed : Finset Int
  log : List LogEntry
  created : List String
  modified : List String
  deriving DecidableEq

/-- `_step_lookup = {step["step"]: step for step in steps}`: a dict
comprehension, so a later declaration with the same number overwrites an
earlier one. -/
def stepLookup (steps : List StepDecl) (n : Int) : Option StepDecl :=
  steps.reverse.find? (fun s => s.step == n)

/-- `mark_step_completed`: add to the completed set, extend the file
manifest lists, append a `completed` execution-log entry. -/
def mark_step_completed (ws : WorkflowState) (n : Int) (role policy task : String)
    (filesCreated filesModified : List String) : WorkflowState :=
  { ws with completed := insert n ws.completed,
            created := ws.created ++ filesCreated,
            modified := ws.modified ++ filesModified,
            log := ws.log ++ [⟨n, role, policy, task, "completed"⟩] }

/-- `is_complete`: `len(self.completed_steps) == total_steps`. -/
def is_complete (ws : WorkflowState) : Bool :=
  (ws.completed.card : Int) == ws.totalSteps

/-- `get_next_step`: scan `range(1, total_steps + 1)` for the first number
not in the completed set and return its lookup (which is `None` when that
number has no declared step). -/
def get_next_step (ws : WorkflowState) : Option StepDecl :=
  match (List.range' 1 ws.totalSteps.toNat).find? (fun k : Nat => !decide ((k : Int) ∈ ws.completed)) with
  | some k => stepLookup ws.steps (k : Int)
  | none => none

/-- The `all_steps_json` payload of `initialize_workflow`; `none` fields
model absent dict keys (`payload.get`). -/
structure InitPayload where
  type : Option String := none
  workflow_id : Option String := none
  total_steps : Option Int := none
  steps : Option (List StepDecl) := none
  original_goal : Option String := none
  deriving DecidableEq

/-- The `single_done_step_json` payload of `process_step_completion`. -/
structure DonePayload where
  type : Option String := none
  workflow_id : Option String := none
  step_number : Option Int := none
  completed_agent_role : Option String := none
  completed_policy : Option String := none
  completed_task : Option String := none
  files_created : List String := []
  files_modified : List String := []
  deriving DecidableEq

/-- The `first_step` block of the initialization response. -/
structure FirstStep where
  step : Int
  agent_role : String
  policy : String
  instruction : String
  context : String
  deriving DecidableEq, Repr

/-- A tracker tool response (the structured content of the JSON string the
Python tool returns). -/
inductive TrackResult where
  | error (msg : String)
  | initialized (wid : String) (total : Int) (message : String) (firstStep : FirstStep)
  | continue_ (wid : String) (next_step_number : Int) (total : Int)
      (agent_role policy instruction context : String)
  | complete (wid message : String) (log : List LogEntry) (totalCompleted : Nat)
      (filesCreated filesModified : Nat) (agentsUsed : List String)
  deriving DecidableEq

/-- The process-wide `workflows` registry (a dict with unique keys,
modelled as an association list in insertion order). -/
abbrev Workflows := List (String × WorkflowState)

/-- `workflow_id in workflows` / `workflows[workflow_id]`. -/
def findWf (wfs : Workflows) (wid : String) : Option WorkflowState :=
  (wfs.find? (fun p => p.1 == wid)).map (fun p => p.2)

/-- In-place mutation of the stored `WorkflowState`, as a registry update. -/
def updateWf (wfs : Workflows) (wid : String) (ws : WorkflowState) : Workflows :=
  wfs.map (fun p => if p.1 == wid then (p.1, ws) else p)

/-- `get_completion_response`.  `files_created` / `files_modified` are
`len(set(...))` (modelled with `dedup`); `agents_used` is `list(set(...))`,
whose Python iteration order is unspecified — modelled as the dedup of the
log order. -/
def get_completion_response (ws : WorkflowState) : TrackResult :=
  let wid := ws.workflow_id
  .complete wid s!"Workflow {wid} completed successfully." ws.log ws.completed.card
    ws.created.dedup.length ws.modified.dedup.length
    ((ws.log.map (fun e => e.agent_role)).dedup)

/-- The `initialize_workflow` tool: validation in source order (payload
type, truthy workflow id, duplicate id, required fields, non-empty step
list), then store the state and answer with the first pending step.  Note
the state is stored *before* the first-step check. -/
def initialize_workflow (wfs : Workflows) (p : InitPayload) : Workflows × TrackResult :=
  if p.type = some "all_steps_json" then
    match p.workflow_id with
    | none => (wfs, .error "Missing workflow_id")
    | some wid =>
      if wid.isEmpty then (wfs, .error "Missing workflow_id")
      else if (findWf wfs wid).isSome then
        (wfs, .error s!"Workflow {wid} already exists. Use a unique workflow_id.")
      else
        match p.total_steps, p.steps with
        | some total, some steps =>
          if steps.isEmpty then (wfs, .error "steps must be a non-empty list")
          else
            let ws : WorkflowState :=
              { workflow_id := wid, totalSteps := total, steps := steps,
                originalGoal := p.original_goal, completed := ∅,
                log := [], created := [], modified := [] }
            let wfs' := wfs ++ [(wid, ws)]
            match get_next_step ws with
            | none => (wfs', .error "No valid first step found in workflow")
            | some fs =>
              let goal := p.original_goal.getD "Not specified"
              (wfs', .initialized wid total
                "Workflow initialized and stored. Ready for step execution."
                ⟨fs.step, fs.agent_role, fs.policy, fs.instruction,
                 s!"Total steps: {total}. Goal: {goal}"⟩)
        | _, _ => (wfs, .error "Missing required fields: total_steps or steps")
  else (wfs, .error "Invalid type. Expected 'all_steps_json'")

/-- The `process_step_completion` tool: validation in source order (payload
type, truthy and known workflow id, step number present, declared, not yet
completed), then record the completion and answer with the next step or
the completion summary.  Every rejection leaves the registry unchanged. -/
def process_step_completion (wfs : Workflows) (p : DonePayload) : Workflows × TrackResult :=
  if p.type = some "single_done_step_json" then
    match p.workflow_id with
    | none => (wfs, .error "Workflow None not found. Initialize with all_steps_json first.")
    | some wid =>
      if wid.isEmpty then
        (wfs, .error s!"Workflow {wid} not found. Initialize with all_steps_json first.")
      else
        match findWf wfs wid with
        | none => (wfs, .error s!"Workflow {wid} not found. Initialize with all_steps_json first.")
        | some ws =>
          match p.step_number with
          | none => (wfs, .error "Missing step_number")
          | some n =>
            if (stepLookup ws.steps n).isNone then
              (wfs, .error s!"Step {n} does not exist in workflow")
            else if n ∈ ws.completed then
              (wfs, .error s!"Step {n} already completed")
            else
              let ws' := mark_step_completed ws n (p.completed_agent_role.getD "Unknown")
                (p.completed_policy.getD "Unknown") (p.completed_task.getD "Unknown")
                p.files_created p.files_modified
              let wfs' := updateWf wfs wid ws'
              if is_complete ws' then (wfs', get_completion_response ws')
              else
                match get_next_step ws' with
                | none => (wfs', .error "No next step found, but workflow not complete")
                | some ns =>
                  let total := ws'.totalSteps
                  let k := ns.step
                  (wfs', .continue_ wid ns.step total ns.agent_role ns.policy ns.instruction
                    s!"Step {k} of {total}")
  else (wfs, .error "Invalid type. Expected 'single_done_step_json'")

/-- The tool surface of `taskrouter_mcp.py` (the `@server.tool()` names). -/
def taskrouterTools : List String :=
  ["initialize_workflow", "process_step_completion", "get_workflow_status", "health_check"]

/-! ## `taskrouter_mpc.py`: the stdio forwarder -/

/-- The tool surface of `taskrouter_mpc.py` (the `@mcp.tool()` names). -/
def routerStdioTools : List String := ["route"]

/-- The payload the `route` tool of `taskrouter_mpc.py` forwards to the
router, with the tool's parameter defaults (`auto_loop = True`,
`from_taskrouter = True`); `workflow_id` is included only when truthy. -/
def mpcRoutePayload (task : String) (auto_loop : Bool := true) (workflow_id : String := "")
    (from_taskrouter : Bool := true) : RouteRequest :=
  { task := task, auto_loop := auto_loop,
    workflow_id := if workflow_id.isEmpty then none else some workflow_id,
    from_taskrouter := from_taskrouter }

/-- Sequential completion reporting: run `process_step_completion` on each
payload in turn, stopping (with `none`) if any call answers an error. -/
def runSeq (wfs : Workflows) : List DonePayload → Option Workflows
  | [] => some wfs
  | p :: ps =>
    match process_step_completion wfs p with
    | (_, .error _) => none
    | (wfs', _) => runSeq wfs' ps

/-- The declared index set `{1, …, N}` as a finset of Python ints. -/
def natRangeFinset (N : Nat) : Finset Int :=
  ((List.range' 1 N).map (fun k : Nat => (k : Int))).toFinset

/-- The agent half of the round-trip re-extraction of the specification's
testable property: re-read the agent from the guarded instruction with the
routing grammar (its first line is `<Agent>: Verify …`). -/
def extractAgent (g : String) : Option String :=
  (parse_routing_line g).map (fun p => p.1)

/-- The text half of the round-trip re-extraction of the specification's
testable property: the task section of the guarded instruction, i.e. what
follows the first `\nTask: ` marker. -/
def extractTaskText (g : String) : Option String :=
  afterMarker "\nTask: " g

/-- The `done` flag of a successful route response. -/
def respDone (o : RouteOutcome) : Option Bool :=
  match o.response with
  | .ok r => some r.done
  | .error _ => none

/-- The `step` field of a successful route response. -/
def respStep (o : RouteOutcome) : Option Nat :=
  match o.response with
  | .ok r => some r.step
  | .error _ => none

/-! ## Concrete demonstration data -/

/-- A demo sub-agent hook whose responses are non-empty. -/
def constInv : Nat → String → String → String := fun _ _ _ => "ok line"

/-- A demo continuation hook that always routes another rostered step. -/
def constOrc : Nat → String → String → String := fun _ _ _ => "FileCreator: again"

/-- A rostered auto-loop kickoff request. -/
def c1req : RouteRequest :=
  { task := "FileCreator: go", auto_loop := true, workflow_id := some "w" }

/-- A request whose task parses but names an unrostered agent. -/
def c2req : RouteRequest := { task := "Bogus: hi", workflow_id := some "w" }

/-- The failing input of claim C3: the trimmed task starts with `DONE`, but
its only newline is trailing whitespace removed by the strip. -/
def c3req : RouteRequest := { task := "DONE\n", workflow_id := some "w" }

/-- A demo invoker whose first answer fails the ack grammar and whose
retry answer differs. -/
def c5inv : Nat → String → String → String :=
  fun n _ _ => if n == 0 then "no ack here" else "retry output"

/-- A one-step demo plan for the duplicate-initialization scenario. -/
def c7p : InitPayload :=
  { type := some "all_steps_json", workflow_id := some "w1", total_steps := some 1,
    steps := some [{ step := 1, agent_role := "A", policy := "P", instruction := "i1" }] }

/-- The registry after a first successful initialization of `c7p`. -/
def c7reg : Workflows := (initialize_workflow [] c7p).1

/-- A two-step tracker state with step 1 already completed. -/
def c8ws : WorkflowState :=
  { workflow_id := "w8", totalSteps := 2,
    steps := [{ step := 1, agent_role := "A", policy := "P", instruction := "i1" },
              { step := 2, agent_role := "B", policy := "Q", instruction := "i2" }],
    originalGoal := none, completed := {1}, log := [], created := [], modified := [] }

/-- A fresh two-step tracker state. -/
def c6ws : WorkflowState :=
  { workflow_id := "w6", totalSteps := 2,
    steps := [{ step := 1, agent_role := "A", policy := "P", instruction := "i1" },
              { step := 2, agent_role := "B", policy := "Q", instruction := "i2" }],
    originalGoal := none, completed := ∅, log := [], created := [], modified := [] }

/-- The registry holding `c6ws`. -/
def c6reg : Workflows := [("w6", c6ws)]

/-- A completion payload for step `k` of workflow `w6`. -/
def c6done (k : Int) : DonePayload :=
  { type := some "single_done_step_json", workflow_id := some "w6", step_number := some k }

end Orchestrator

namespace Orchestrator

/-! ## Claim C10: TaskRouter kickoff forces auto-loop -/

/-- C10: for every route request with `from_taskrouter = true` the router
executes in auto-loop mode regardless of the `auto_loop` field: the kickoff
enforcement rewrites an explicitly supplied `auto_loop = false` (which is
also the field's default) to `true`, so the whole call behaves identically
to the same request with `auto_loop = true`. -/
theorem kickoff_forces_auto_loop (ms : Nat) (enf : Bool)
    (inv orc : Nat → String → String → String) (now : Nat) (task : String)
    (wid : Option String) :
    effective_auto_loop
        { task := task, auto_loop := false, workflow_id := wid, from_taskrouter := true } = true ∧
    route_task ms enf inv orc now
        { task := task, auto_loop := false, workflow_id := wid, from_taskrouter := true } =
      route_task ms enf inv orc now
        { task := task, auto_loop := true, workflow_id := wid, from_taskrouter := true } :=
  ⟨rfl, rfl⟩

/-! ## Claim C4: there is no abort operation -/

/-- C4 counterexample: the claim asserts `abort(workflowId)` exists at the
public interface; in fact no surface of the system (FastAPI routes of
`router_mcp.py`, tools of `taskrouter_mcp.py`, tools of
`taskrouter_mpc.py`) offers an abort operation. -/
theorem abort_endpoint_counterexample :
    (¬ ∃ m, (m, "/abort") ∈ routerEndpoints) ∧
    "abort" ∉ taskrouterTools ∧ "abort" ∉ routerStdioTools := by
  refine ⟨?_, by decide, by decide⟩
  rintro ⟨m, hm⟩
  simp only [routerEndpoints, List.mem_cons, List.not_mem_nil, or_false, Prod.mk.injEq] at hm
  rcases hm with ⟨-, h⟩ | ⟨-, h⟩ <;> exact absurd h (by decide)

/-- C4 amended: no abort operation exists anywhere; the public surface is
exactly `GET /health` and `POST /route` on the router, the four tracker
tools, and the stdio forwarder's `route` tool. -/
theorem public_interface_inventory :
    routerEndpoints = [("GET", "/health"), ("POST", "/route")] ∧
    taskrouterTools =
      ["initialize_workflow", "process_step_completion", "get_workflow_status", "health_check"] ∧
    routerStdioTools = ["route"] ∧
    "/abort" ∉ routerEndpoints.map (fun p => p.2) ∧
    "abort" ∉ taskrouterTools ∧ "abort" ∉ routerStdioTools := by decide

/-! ## Claim C2: unknown agent -/

/-- C2 counterexample: for the request `"Bogus: hi"` (parses, agent not in
roster) the router neither records an `unknown_agent` audit event (it
records nothing at all) nor returns normally: it throws HTTP 400. -/
theorem unknown_agent_report_counterexample :
    ¬ ((∃ e, e ∈ (route_task 10 true constInv constOrc 0 c2req).events ∧
          ∃ w a, e = Event.unknown_agent w a) ∧
       ∃ r, (route_task 10 true constInv constOrc 0 c2req).response = Except.ok r) := by
  have hev : (route_task 10 true constInv constOrc 0 c2req).events = [] := by decide
  rintro ⟨⟨e, he, -⟩, -⟩
  rw [hev] at he
  exact absurd he (List.not_mem_nil e)

/-- C2 amended: a route request whose task parses as
`<AgentName>: <instruction>` with an unrostered agent name makes the router
raise `HTTPException(400, "unknown_agent:<name>")` without recording any
audit event, without any narrative line, and without invoking any worker. -/
theorem unknown_agent_rejects (ms : Nat) (enf : Bool)
    (inv orc : Nat → String → String → String) (now : Nat) (req : RouteRequest)
    (a t : String)
    (hms : 1 ≤ ms)
    (hdone : doneCheck (stripStr req.task) = false)
    (hparse : parse_routing_line req.task = some (a, t))
    (hros : subAgentKey a = none) :
    route_task ms enf inv orc now req =
      { response := .error (.http 400 ("unknown_agent:" ++ a)),
        events := [], narrative := [], primaryCalls := 0, retryCalls := 0 } := by
  obtain ⟨g, rfl⟩ : ∃ g, ms = g + 1 := ⟨ms - 1, by omega⟩
  simp only [route_task, hdone, Bool.false_eq_true, if_false, routeLoop, hparse, hros]

/-- Witness for C2's amended theorem at the concrete request `c2req`. -/
theorem unknown_agent_rejects_witness :
    (1 ≤ 10 ∧ doneCheck (stripStr c2req.task) = false ∧
     parse_routing_line c2req.task = some ("Bogus", "hi") ∧ subAgentKey "Bogus" = none) ∧
    route_task 10 true constInv constOrc 0 c2req =
      { response := .error (.http 400 ("unknown_agent:" ++ "Bogus")),
        events := [], narrative := [], primaryCalls := 0, retryCalls := 0 } :=
  ⟨⟨by decide, by decide, by decide, by decide⟩,
   unknown_agent_rejects 10 true constInv constOrc 0 c2req "Bogus" "hi"
     (by decide) (by decide) (by decide) (by decide)⟩

/-! ## Claim C3: the early-DONE branch -/

/-- C3 (code bug): the claim — and the specification — say a task whose
trimmed form starts with `DONE` is finalized with an optional summary and
answered with a terminal `done = true` response.  At the failing input
`task = "DONE\n"` the handler instead raises an unhandled `IndexError`:
the newline-containment check passes on the raw task while the split is
applied to the stripped task, which no longer contains a newline (the
loop's own DONE branch, line 337, uses the same string for both and shows
the intended behaviour). -/
theorem early_done_crash_at_failing_input :
    (route_task 10 true constInv constOrc 0 c3req).response
      = Except.error RouteError.indexError ∧
    (route_task 10 true constInv constOrc 0 c3req).events = [] := by decide

/-! ## Claim C5: ack mismatch soft failure -/

/-- C5: with acknowledgment enforcement enabled, when the first line of the
worker's response fails the ack grammar or its agent/policy fields do not
match, the enforcement block logs exactly one `warn` event (with the
expected ack and the received first line), retries the identical invocation
exactly once, and proceeds with the retry's response regardless of whether
that second response acknowledges — the mismatch never blocks progress. -/
theorem ack_mismatch_warns_and_retries_once (wid agent key guarded : String)
    (inv : Nat → String → String → String) (invIdx : Nat)
    (htitle : (ruleTitle agent).isSome = true)
    (fl fl2 : String)
    (h1 : firstLine (inv invIdx key guarded) = some fl)
    (hbad : ackOk agent fl = false)
    (h2 : firstLine (inv (invIdx + 1) key guarded) = some fl2) :
    ackPhase true wid agent inv invIdx key guarded (inv invIdx key guarded) =
      ([Event.warn wid agent (expectedAck agent) fl], 1,
       Except.ok (inv (invIdx + 1) key guarded)) := by
  simp only [ackPhase, htitle, Bool.and_true, Bool.true_and, if_true, h1, hbad,
    Bool.false_eq_true, if_false, h2]

/-- Witness for C5 at a concrete mismatching invoker. -/
theorem ack_mismatch_warns_and_retries_once_witness :
    ((ruleTitle "FileCreator").isSome = true ∧
     firstLine (c5inv 0 "file-creator" "g") = some "no ack here" ∧
     ackOk "FileCreator" "no ack here" = false ∧
     firstLine (c5inv 1 "file-creator" "g") = some "retry output") ∧
    ackPhase true "w" "FileCreator" c5inv 0 "file-creator" "g" (c5inv 0 "file-creator" "g") =
      ([Event.warn "w" "FileCreator" (expectedAck "FileCreator") "no ack here"], 1,
       Except.ok (c5inv 1 "file-creator" "g")) :=
  ⟨⟨by decide, by decide, by decide, by decide⟩,
   ack_mismatch_warns_and_retries_once "w" "FileCreator" "file-creator" "g" c5inv 0
     (by decide) "no ack here" "retry output" (by decide) (by decide) (by decide)⟩

/-! ## Claim C7: duplicate workflow initialization -/

/-- C7: an `initialize_workflow` call whose (well-typed, truthy) workflow
id is already registered fails with the duplicate-workflow error and
leaves the registry — in particular the first workflow's plan, completed
set, execution log and file manifest — unchanged. -/
theorem initialize_duplicate_rejected (wfs : Workflows) (p : InitPayload) (wid : String)
    (htype : p.type = some "all_steps_json")
    (hwid : p.workflow_id = some wid) (hne : wid.isEmpty = false)
    (hdup : (findWf wfs wid).isSome = true) :
    initialize_workflow wfs p =
      (wfs, .error s!"Workflow {wid} already exists. Use a unique workflow_id.") := by
  simp only [initialize_workflow, htype, if_true, hwid, hne, Bool.false_eq_true, if_false, hdup]

/-- Witness for C7: a second initialization of `c7p` after the first. -/
theorem initialize_duplicate_rejected_witness :
    (c7p.type = some "all_steps_json" ∧ c7p.workflow_id = some "w1" ∧
     "w1".isEmpty = false ∧ (findWf c7reg "w1").isSome = true) ∧
    initialize_workflow c7reg c7p =
      (c7reg, .error "Workflow w1 already exists. Use a unique workflow_id.") :=
  ⟨⟨by decide, by decide, by decide, by decide⟩,
   initialize_duplicate_rejected c7reg c7p "w1" (by decide) (by decide) (by decide) (by decide)⟩

/-! ## Claim C8: next pending step is the lowest incomplete one -/

/-- A step lookup answers with a step carrying the looked-up number. -/
theorem stepLookup_step (steps : List StepDecl) (n : Int) (s : StepDecl)
    (h : stepLookup steps n = some s) : s.step = n := by
  have := List.find?_some h
  exact beq_iff_eq.1 this

/-- C8: in a workflow whose declared steps have contiguous indices `1..N`,
`get_next_step` returns the lowest-numbered step not in the completed set
(never reordering by priority), and `none` once every declared index is
completed. -/
theorem next_pending_lowest (ws : WorkflowState) (N : Nat)
    (htotal : ws.totalSteps = (N : Int))
    (hlk : ∀ k : Nat, 1 ≤ k → k ≤ N → (stepLookup ws.steps (k : Int)).isSome = true) :
    ((∀ k : Nat, 1 ≤ k → k ≤ N → (k : Int) ∈ ws.completed) → get_next_step ws = none) ∧
    (∀ k : Nat, 1 ≤ k → k ≤ N → (k : Int) ∉ ws.completed →
      (∀ j : Nat, 1 ≤ j → j < k → (j : Int) ∈ ws.completed) →
      ∃ s, get_next_step ws = some s ∧ s.step = (k : Int)) := by
  have hN : ws.totalSteps.toNat = N := by rw [htotal]; exact Int.toNat_natCast N
  constructor
  · intro hall
    have hfind : List.find? (fun k : Nat => !decide ((k : Int) ∈ ws.completed))
        (List.range' 1 N) = none := by
      rw [List.find?_eq_none]
      intro x hx
      obtain ⟨i, hi, rfl⟩ := List.mem_range'.1 hx
      have hmem := hall (1 + 1 * i) (by omega) (by omega)
      push_cast at hmem
      simpa using hmem
    unfold get_next_step
    rw [hN, hfind]
  · intro k hk1 hkN hknot hbelow
    have hsplit : List.range' 1 N = List.range' 1 (k - 1) ++ List.range' k (N - k + 1) := by
      have happ := List.range'_append 1 (k - 1) (N - k + 1) 1
      have h1 : 1 + 1 * (k - 1) = k := by omega
      have h2 : N - k + 1 + (k - 1) = N := by omega
      rw [h1, h2] at happ
      exact happ.symm
    have hfirst : List.find? (fun k : Nat => !decide ((k : Int) ∈ ws.completed))
        (List.range' 1 (k - 1)) = none := by
      rw [List.find?_eq_none]
      intro x hx
      obtain ⟨i, hi, rfl⟩ := List.mem_range'.1 hx
      have hmem := hbelow (1 + 1 * i) (by omega) (by omega)
      push_cast at hmem
      simpa using hmem
    have hsecond : List.find? (fun k : Nat => !decide ((k : Int) ∈ ws.completed))
        (List.range' k (N - k + 1)) = some k := by
      have hcons : List.range' k (N - k + 1) = k :: List.range' (k + 1) (N - k) :=
        List.range'_succ k (N - k) 1
      rw [hcons]
      exact List.find?_cons_of_pos _ (by simpa using hknot)
    have hfind : List.find? (fun k : Nat => !decide ((k : Int) ∈ ws.completed))
        (List.range' 1 N) = some k := by
      rw [hsplit, List.find?_append, hfirst, hsecond]
      rfl
    obtain ⟨s, hs⟩ := Option.isSome_iff_exists.1 (hlk k hk1 hkN)
    refine ⟨s, ?_, stepLookup_step _ _ _ hs⟩
    unfold get_next_step
    rw [hN, hfind]
    exact hs

/-- Witness for C8 at the two-step state `c8ws` with step 1 completed:
the next pending step is the declared step 2. -/
theorem next_pending_lowest_witness :
    (c8ws.totalSteps = ((2 : Nat) : Int) ∧
     (∀ k : Nat, 1 ≤ k → k ≤ 2 → (stepLookup c8ws.steps (k : Int)).isSome = true) ∧
     ((2 : Nat) : Int) ∉ c8ws.completed ∧
     (∀ j : Nat, 1 ≤ j → j < 2 → (j : Int) ∈ c8ws.completed)) ∧
    ∃ s, get_next_step c8ws = some s ∧ s.step = ((2 : Nat) : Int) := by
  have hlk : ∀ k : Nat, 1 ≤ k → k ≤ 2 → (stepLookup c8ws.steps (k : Int)).isSome = true := by
    intro k h1 h2
    interval_cases k <;> decide
  have hbelow : ∀ j : Nat, 1 ≤ j → j < 2 → (j : Int) ∈ c8ws.completed := by
    intro j h1 h2
    interval_cases j
    decide
  exact ⟨⟨by decide, hlk, by decide, hbelow⟩,
    (next_pending_lowest c8ws 2 (by decide) hlk).2 2 (by decide) (by decide) (by decide) hbelow⟩

/-! ## Claim C6: completing the whole plan, and duplicate completions -/

/-- Updating the entry a lookup found changes exactly that lookup. -/
theorem findWf_updateWf (wfs : Workflows) (wid : String) (ws ws' : WorkflowState)
    (h : findWf wfs wid = some ws) : findWf (updateWf wfs wid ws') wid = some ws' := by
  induction wfs with
  | nil => simp [findWf] at h
  | cons q rest ih =>
    rcases q with ⟨qid, qws⟩
    by_cases hq : qid = wid
    · subst hq
      simp [findWf, updateWf, List.find?_cons]
    · have hqb : (qid == wid) = false := by simpa using hq
      have h' : findWf rest wid = some ws := by
        simpa [findWf, List.find?_cons, hqb] using h
      have hrec := ih h'
      simpa [findWf, updateWf, List.find?_cons, hqb, hq] using hrec

/-- Membership in the declared index set. -/
theorem mem_natRangeFinset (N : Nat) (x : Int) :
    x ∈ natRangeFinset N ↔ ∃ j : Nat, 1 ≤ j ∧ j ≤ N ∧ x = (j : Int) := by
  unfold natRangeFinset
  simp only [List.mem_toFinset, List.mem_map, List.mem_range']
  constructor
  · rintro ⟨a, ⟨i, hi, rfl⟩, rfl⟩
    exact ⟨1 + 1 * i, by omega, by omega, rfl⟩
  · rintro ⟨j, h1, h2, rfl⟩
    exact ⟨j, ⟨j - 1, by omega, by omega⟩, rfl⟩

/-- The declared index set has exactly `N` members. -/
theorem card_natRangeFinset (N : Nat) : (natRangeFinset N).card = N := by
  unfold natRangeFinset
  rw [List.toFinset_card_of_nodup]
  · simp
  · exact List.Nodup.map Nat.cast_injective (List.nodup_range' 1 N)

/-- While a tracked workflow (with contiguous plan `1..N` and a completed
set drawn from the declared indices) is not complete, `get_next_step`
answers with a step. -/
theorem next_of_incomplete (ws : WorkflowState) (N : Nat)
    (htotal : ws.totalSteps = (N : Int))
    (hlk : ∀ k : Nat, 1 ≤ k → k ≤ N → (stepLookup ws.steps (k : Int)).isSome = true)
    (hsub : ∀ x ∈ ws.completed, ∃ j : Nat, 1 ≤ j ∧ j ≤ N ∧ x = (j : Int))
    (hinc : is_complete ws = false) :
    (get_next_step ws).isSome = true := by
  have hN : ws.totalSteps.toNat = N := by rw [htotal]; exact Int.toNat_natCast N
  cases hfind : List.find? (fun k : Nat => !decide ((k : Int) ∈ ws.completed))
      (List.range' 1 N) with
  | none =>
    exfalso
    rw [List.find?_eq_none] at hfind
    have hsup : ∀ x ∈ List.range' 1 N, (x : Int) ∈ ws.completed := by
      intro x hx
      have := hfind x hx
      simpa using this
    have hEq : ws.completed = natRangeFinset N := by
      apply Finset.Subset.antisymm
      · intro x hxm
        exact (mem_natRangeFinset N x).2 (hsub x hxm)
      · intro x hxm
        obtain ⟨j, h1, h2, rfl⟩ := (mem_natRangeFinset N x).1 hxm
        exact hsup j (List.mem_range'.2 ⟨j - 1, by omega, by omega⟩)
    have hcard : ws.completed.card = N := by rw [hEq]; exact card_natRangeFinset N
    unfold is_complete at hinc
    rw [hcard, htotal] at hinc
    simp at hinc
  | some k =>
    have hk := List.mem_range'.1 (List.mem_of_find?_eq_some hfind)
    unfold get_next_step
    rw [hN, hfind]
    obtain ⟨i, hi, rfl⟩ := hk
    exact hlk _ (by omega) (by omega)

/-- One valid, fresh completion report: the registry entry is updated by
`mark_step_completed` and the response is never an error. -/
theorem process_step_success (N : Nat) (wid : String) (hne : wid.isEmpty = false)
    (wfs : Workflows) (ws : WorkflowState) (p : DonePayload) (k : Nat)
    (hfind : findWf wfs wid = some ws)
    (htotal : ws.totalSteps = (N : Int))
    (hlk : ∀ j : Nat, 1 ≤ j → j ≤ N → (stepLookup ws.steps (j : Int)).isSome = true)
    (hsub : ∀ x ∈ ws.completed, ∃ j : Nat, 1 ≤ j ∧ j ≤ N ∧ x = (j : Int))
    (htype : p.type = some "single_done_step_json")
    (hwid : p.workflow_id = some wid)
    (hstep : p.step_number = some (k : Int))
    (hk1 : 1 ≤ k) (hkN : k ≤ N)
    (hnm : (k : Int) ∉ ws.completed) :
    ∃ res, process_step_completion wfs p =
      (updateWf wfs wid (mark_step_completed ws (k : Int)
        (p.completed_agent_role.getD "Unknown") (p.completed_policy.getD "Unknown")
        (p.completed_task.getD "Unknown") p.files_created p.files_modified), res) ∧
      ∀ m, res ≠ .error m := by
  have hlook : (stepLookup ws.steps ((k : Nat) : Int)).isNone = false := by
    have := hlk k hk1 hkN
    cases hcase : stepLookup ws.steps ((k : Nat) : Int) with
    | none => rw [hcase] at this; simp at this
    | some s => rfl
  have hmem : ((k : Int) ∈ ws.completed) = False := by simp [hnm]
  set ws' := mark_step_completed ws (k : Int)
    (p.completed_agent_role.getD "Unknown") (p.completed_policy.getD "Unknown")
    (p.completed_task.getD "Unknown") p.files_created p.files_modified with hws'
  have hsub' : ∀ x ∈ ws'.completed, ∃ j : Nat, 1 ≤ j ∧ j ≤ N ∧ x = (j : Int) := by
    intro x hx
    rw [hws'] at hx
    simp only [mark_step_completed, Finset.mem_insert] at hx
    rcases hx with rfl | hx
    · exact ⟨k, hk1, hkN, rfl⟩
    · exact hsub x hx
  unfold process_step_completion
  simp only [htype, if_true, hwid, hne, Bool.false_eq_true, if_false, hfind, hstep,
    hlook, hmem, ← hws']
  by_cases hc : is_complete ws' = true
  · rw [hc]
    simp only [if_true]
    exact ⟨get_completion_response ws', rfl, by intro m h; cases h⟩
  · have hcf : is_complete ws' = false := by simpa using hc
    rw [hcf]
    simp only [Bool.false_eq_true, if_false]
    have hnext : (get_next_step ws').isSome = true := by
      refine next_of_incomplete ws' N ?_ ?_ hsub' hcf
      · rw [hws']; exact htotal
      · rw [hws']; exact hlk
    obtain ⟨ns, hns⟩ := Option.isSome_iff_exists.1 hnext
    rw [hns]
    exact ⟨_, rfl, by intro m h; cases h⟩

/-- Folding a sequence of fresh, in-range completion reports over the
tracker succeeds and accumulates exactly the reported indices into the
completed set, leaving plan and total untouched. -/
theorem runSeq_completes (N : Nat) (wid : String) (hne : wid.isEmpty = false) :
    ∀ (ps : List DonePayload) (ks : List Nat) (wfs : Workflows) (ws : WorkflowState),
    List.Forall₂ (fun (p : DonePayload) (k : Nat) =>
        p.type = some "single_done_step_json" ∧ p.workflow_id = some wid ∧
        p.step_number = some (k : Int)) ps ks →
    findWf wfs wid = some ws →
    ws.totalSteps = (N : Int) →
    (∀ k : Nat, 1 ≤ k → k ≤ N → (stepLookup ws.steps (k : Int)).isSome = true) →
    (∀ x ∈ ws.completed, ∃ j : Nat, 1 ≤ j ∧ j ≤ N ∧ x = (j : Int)) →
    ks.Nodup →
    (∀ k ∈ ks, 1 ≤ k ∧ k ≤ N) →
    (∀ k ∈ ks, (k : Int) ∉ ws.completed) →
    ∃ wfs' ws', runSeq wfs ps = some wfs' ∧ findWf wfs' wid = some ws' ∧
      ws'.completed = ws.completed ∪ (ks.map (fun k : Nat => (k : Int))).toFinset ∧
      ws'.totalSteps = ws.totalSteps ∧ ws'.steps = ws.steps := by
  intro ps
  induction ps with
  | nil =>
    intro ks wfs ws hpair hfind htotal hlk hsub hnd hbound hfresh
    obtain rfl := List.forall₂_nil_left_iff.1 hpair
    exact ⟨wfs, ws, rfl, hfind, by simp, rfl, rfl⟩
  | cons p ps' ih =>
    intro ks wfs ws hpair hfind htotal hlk hsub hnd hbound hfresh
    obtain ⟨k, ks', ⟨hty, hw, hsn⟩, hpair', rfl⟩ := List.forall₂_cons_left_iff.1 hpair
    have hk1 : 1 ≤ k := (hbound k (by simp)).1
    have hkN : k ≤ N := (hbound k (by simp)).2
    have hnm : (k : Int) ∉ ws.completed := hfresh k (by simp)
    obtain ⟨res, hres, hnerr⟩ :=
      process_step_success N wid hne wfs ws p k hfind htotal hlk hsub hty hw hsn hk1 hkN hnm
    set ws1 := mark_step_completed ws (k : Int) (p.completed_agent_role.getD "Unknown")
      (p.completed_policy.getD "Unknown") (p.completed_task.getD "Unknown")
      p.files_created p.files_modified with hws1
    have hfind1 : findWf (updateWf wfs wid ws1) wid = some ws1 :=
      findWf_updateWf wfs wid ws ws1 hfind
    have hsub1 : ∀ x ∈ ws1.completed, ∃ j : Nat, 1 ≤ j ∧ j ≤ N ∧ x = (j : Int) := by
      intro x hx
      rw [hws1] at hx
      simp only [mark_step_completed, Finset.mem_insert] at hx
      rcases hx with rfl | hx
      · exact ⟨k, hk1, hkN, rfl⟩
      · exact hsub x hx
    have hnd' : ks'.Nodup := (List.nodup_cons.1 hnd).2
    have hknotin : k ∉ ks' := (List.nodup_cons.1 hnd).1
    have hbound' : ∀ k' ∈ ks', 1 ≤ k' ∧ k' ≤ N := fun k' h => hbound k' (by simp [h])
    have hfresh1 : ∀ k' ∈ ks', (k' : Int) ∉ ws1.completed := by
      intro k' h
      rw [hws1]
      simp only [mark_step_completed, Finset.mem_insert]
      rintro (hcast | hmem)
      · exact hknotin (Nat.cast_inj.1 hcast ▸ h)
      · exact hfresh k' (by simp [h]) hmem
    obtain ⟨wfs', ws', hrun, hfind', hcomp', htot', hsteps'⟩ :=
      ih ks' (updateWf wfs wid ws1) ws1 hpair' hfind1 htotal hlk hsub1 hnd' hbound' hfresh1
    refine ⟨wfs', ws', ?_, hfind', ?_, htot', hsteps'⟩
    · show runSeq wfs (p :: ps') = some wfs'
      unfold runSeq
      rw [hres]
      cases res with
      | error m => exact absurd rfl (hnerr m)
      | initialized w t msg fs => exact hrun
      | continue_ w n t r pol i ctx => exact hrun
      | complete w msg lg tc fc fm ag => exact hrun
    · rw [hcomp', hws1]
      simp [mark_step_completed, Finset.insert_union, Finset.union_insert]

/-- C6: initializing a workflow with contiguous steps `1..N` and reporting
each step exactly once, in any order, drives the tracker to
`is_complete = true` with `get_next_step = none`; and reporting an
already-completed (declared) step is rejected with the duplicate error and
no state mutation — the registry, hence execution log and file manifest,
is unchanged. -/
theorem tracker_completion_correct (N : Nat) (wid : String)
    (wfs : Workflows) (ws0 : WorkflowState) (ps : List DonePayload) (ks : List Nat)
    (hne : wid.isEmpty = false)
    (hfind : findWf wfs wid = some ws0)
    (htotal : ws0.totalSteps = (N : Int))
    (hlk : ∀ k : Nat, 1 ≤ k → k ≤ N → (stepLookup ws0.steps (k : Int)).isSome = true)
    (hempty : ws0.completed = ∅)
    (hperm : ks.Perm (List.range' 1 N))
    (hpair : List.Forall₂ (fun (p : DonePayload) (k : Nat) =>
        p.type = some "single_done_step_json" ∧ p.workflow_id = some wid ∧
        p.step_number = some (k : Int)) ps ks) :
    (∃ wfs' ws', runSeq wfs ps = some wfs' ∧ findWf wfs' wid = some ws' ∧
       is_complete ws' = true ∧ get_next_step ws' = none) ∧
    (∀ (wfs₁ : Workflows) (ws₁ : WorkflowState) (q : DonePayload) (K : Int),
       q.type = some "single_done_step_json" → q.workflow_id = some wid →
       findWf wfs₁ wid = some ws₁ → q.step_number = some K →
       (stepLookup ws₁.steps K).isSome = true → K ∈ ws₁.completed →
       process_step_completion wfs₁ q = (wfs₁, .error s!"Step {K} already completed")) := by
  constructor
  · have hnd : ks.Nodup := (hperm.nodup_iff).2 (List.nodup_range' 1 N)
    have hbound : ∀ k ∈ ks, 1 ≤ k ∧ k ≤ N := by
      intro k hk
      obtain ⟨i, hi, rfl⟩ := List.mem_range'.1 (hperm.mem_iff.1 hk)
      omega
    have hfresh : ∀ k ∈ ks, (k : Int) ∉ ws0.completed := by
      intro k _hk
      rw [hempty]
      simp
    obtain ⟨wfs', ws', hrun, hfind', hcomp', htot', hsteps'⟩ :=
      runSeq_completes N wid hne ps ks wfs ws0 hpair hfind htotal hlk
        (by rw [hempty]; simp) hnd hbound hfresh
    have hksF : (ks.map (fun k : Nat => (k : Int))).toFinset = natRangeFinset N := by
      apply Finset.ext
      intro x
      simp only [List.mem_toFinset, natRangeFinset]
      exact (hperm.map (fun k : Nat => (k : Int))).mem_iff
    refine ⟨wfs', ws', hrun, hfind', ?_, ?_⟩
    · unfold is_complete
      rw [hcomp', hempty, Finset.empty_union, hksF, card_natRangeFinset, htot', htotal]
      simp
    · refine (next_pending_lowest ws' N (by rw [htot']; exact htotal)
        (fun k h1 h2 => by rw [hsteps']; exact hlk k h1 h2)).1 ?_
      intro k h1 h2
      rw [hcomp', hempty, Finset.empty_union, hksF]
      exact (mem_natRangeFinset N _).2 ⟨k, h1, h2, rfl⟩
  · intro wfs₁ ws₁ q K hty hw hf hsn hlkK hmem
    have hlook : (stepLookup ws₁.steps K).isNone = false := by
      cases hcase : stepLookup ws₁.steps K with
      | none => rw [hcase] at hlkK; simp at hlkK
      | some s => rfl
    unfold process_step_completion
    simp only [hty, if_true, hw, hne, Bool.false_eq_true, if_false, hf, hsn, hlook, hmem]

/-- Witness for C6: the two-step workflow `w6`, completed in the order
`2, 1`, plus the hypotheses of the theorem at that input. -/
theorem tracker_completion_correct_witness :
    ("w6".isEmpty = false ∧ findWf c6reg "w6" = some c6ws ∧
     c6ws.totalSteps = ((2 : Nat) : Int) ∧ c6ws.completed = ∅ ∧
     List.Perm [2, 1] (List.range' 1 2)) ∧
    (∃ wfs' ws', runSeq c6reg [c6done 2, c6done 1] = some wfs' ∧
       findWf wfs' "w6" = some ws' ∧ is_complete ws' = true ∧ get_next_step ws' = none) := by
  have hlk : ∀ k : Nat, 1 ≤ k → k ≤ 2 → (stepLookup c6ws.steps (k : Int)).isSome = true := by
    intro k h1 h2
    interval_cases k <;> decide
  have hpair : List.Forall₂ (fun (p : DonePayload) (k : Nat) =>
      p.type = some "single_done_step_json" ∧ p.workflow_id = some "w6" ∧
      p.step_number = some (k : Int)) [c6done 2, c6done 1] [2, 1] :=
    List.Forall₂.cons ⟨rfl, rfl, rfl⟩ (List.Forall₂.cons ⟨rfl, rfl, rfl⟩ List.Forall₂.nil)
  exact ⟨⟨by decide, by decide, by decide, by decide, by decide⟩,
    (tracker_completion_correct 2 "w6" c6reg c6ws [c6done 2, c6done 1] [2, 1]
      (by decide) (by decide) (by decide) hlk (by decide) (by decide) hpair).1⟩

/-! ## Claim C1: the auto-loop safety cap -/

/-- `splitlines` of a non-empty string is non-empty. -/
theorem splitLinesAux_ne_nil (acc l : List Char) : splitLinesAux acc l ≠ [] := by
  induction acc, l using splitLinesAux.induct <;> simp_all [splitLinesAux]

/-- A non-empty response has a first line, so `splitlines()[0]` cannot
raise. -/
theorem firstLine_isSome (s : String) (h : s ≠ "") : (firstLine s).isSome = true := by
  cases s with
  | mk d =>
    cases d with
    | nil => exact absurd rfl h
    | cons c r =>
      unfold firstLine splitLinesCore
      cases hsl : splitLinesAux [] (c :: r) with
      | nil => exact absurd hsl (splitLinesAux_ne_nil [] (c :: r))
      | cons x xs => simp [hsl]

/-- The ack-enforcement block never blocks execution when the invoker's
responses are non-empty: it always hands back a response to proceed with. -/
theorem ackPhase_ok (enf : Bool) (wid agent : String)
    (inv : Nat → String → String → String) (invIdx : Nat) (key guarded r1 : String)
    (hinv : ∀ n k g, inv n k g ≠ "") (hr1 : r1 ≠ "") :
    ∃ evs retries resp,
      ackPhase enf wid agent inv invIdx key guarded r1 = (evs, retries, Except.ok resp) := by
  unfold ackPhase
  by_cases he : (enf && (ruleTitle agent).isSome) = true
  · simp only [he, if_true]
    obtain ⟨fl, hfl⟩ := Option.isSome_iff_exists.1 (firstLine_isSome r1 hr1)
    rw [hfl]
    by_cases hok : ackOk agent fl = true
    · simp only [hok, if_true]
      exact ⟨_, _, _, rfl⟩
    · have hokf : ackOk agent fl = false := by simpa using hok
      simp only [hokf, Bool.false_eq_true, if_false]
      obtain ⟨fl2, hfl2⟩ :=
        Option.isSome_iff_exists.1 (firstLine_isSome _ (hinv (invIdx + 1) key guarded))
      rw [hfl2]
      exact ⟨_, _, _, rfl⟩
  · have hef : (enf && (ruleTitle agent).isSome) = false := by simpa using he
    simp only [hef, Bool.false_eq_true, if_false]
    exact ⟨_, _, _, rfl⟩

/-- The auto-loop under a never-DONE oracle: with every invoker response
non-empty and every oracle continuation a parseable, rostered, non-DONE
routing line, each remaining budget unit runs one worker iteration, and
the loop ends in the safety-cap branch: a `done = true` response carrying
`step = step₀ + gas`, exactly `gas` further primary worker invocations,
and a final `stopped_max_steps` audit event. -/
theorem routeLoop_never_done (ms : Nat) (enf : Bool)
    (inv orc : Nat → String → String → String) (wid : String)
    (hinv : ∀ n k g, inv n k g ≠ "")
    (horc : ∀ n a r, (∃ b t, parse_routing_line (stripStr (orc n a r)) = some (b, t) ∧
        (subAgentKey b).isSome = true) ∧ doneCheck (stripStr (orc n a r)) = false) :
    ∀ (gas step invIdx orIdx : Nat) (task : String),
    (∃ b t, parse_routing_line task = some (b, t) ∧ (subAgentKey b).isSome = true) →
    (routeLoop ms enf inv orc wid true gas step invIdx orIdx task).response =
      Except.ok { ok := true, workflow_id := wid, step := step + gas,
                  message := some (stoppedMsg ms), done := true } ∧
    (routeLoop ms enf inv orc wid true gas step invIdx orIdx task).primaryCalls = gas ∧
    (routeLoop ms enf inv orc wid true gas step invIdx orIdx task).events.getLast? =
      some (.stopped_max_steps wid (stoppedMsg ms)) := by
  intro gas
  induction gas with
  | zero =>
    intro step invIdx orIdx task _h
    refine ⟨?_, ?_, ?_⟩ <;> simp [routeLoop]
  | succ gas ih =>
    intro step invIdx orIdx task htask
    obtain ⟨b, t, hp, hk⟩ := htask
    obtain ⟨key, hkey⟩ := Option.isSome_iff_exists.1 hk
    obtain ⟨evs, retries, resp, hack⟩ :=
      ackPhase_ok enf wid b inv invIdx key (guard_instruction b t)
        (inv invIdx key (guard_instruction b t)) hinv (hinv invIdx key (guard_instruction b t))
    obtain ⟨hntp, hntd⟩ := horc orIdx b resp
    have hrec := ih (step + 1) (invIdx + 1 + retries) (orIdx + 1)
      (stripStr (orc orIdx b resp)) hntp
    have harith : step + 1 + gas = step + (gas + 1) := by omega
    simp only [routeLoop, hp, hkey, hack, Bool.not_true, Bool.false_eq_true, if_false,
      hntd, harith] at hrec ⊢
    refine ⟨?_, ?_, ?_⟩
    · rw [hrec.1]
    · rw [hrec.2.1]
      omega
    · rw [List.getLast?_append]
      have hne : (routeLoop ms enf inv orc wid true gas (step + 1) (invIdx + 1 + retries)
          (orIdx + 1) (stripStr (orc orIdx b resp))).events.getLast? =
          some (.stopped_max_steps wid (stoppedMsg ms)) := hrec.2.2
      rw [hne]
      rfl

/-- C1 counterexample: with `MAX_STEPS = 2`, a rostered kickoff task, an
acknowledging-or-not invoker and a never-DONE oracle, the cap response is
*terminal* (`done = true`) and its step field is `3 = MAX_STEPS + 1` — not
the non-terminal, `step = MAX_STEPS` response the claim asserts. -/
theorem auto_loop_cap_counterexample :
    respDone (route_task 2 true constInv constOrc 0 c1req) = some true ∧
    respStep (route_task 2 true constInv constOrc 0 c1req) = some 3 ∧
    ¬ (respDone (route_task 2 true constInv constOrc 0 c1req) = some false ∧
       respStep (route_task 2 true constInv constOrc 0 c1req) = some 2) := by decide

/-- C1 amended: with auto-loop effective, a cap of `maxSteps`, non-empty
invoker responses, and a continuation oracle that always returns a
parseable rostered routing line never starting with DONE, the loop invokes
the worker exactly `maxSteps` times, persists a `stopped_max_steps` audit
event last, and returns a `done = true` response whose step field is
`maxSteps + 1`. -/
theorem auto_loop_cap_behaviour (ms : Nat) (enf : Bool)
    (inv orc : Nat → String → String → String) (now : Nat) (req : RouteRequest)
    (hauto : effective_auto_loop req = true)
    (hnd : doneCheck (stripStr req.task) = false)
    (hinv : ∀ n k g, inv n k g ≠ "")
    (horc : ∀ n a r, (∃ b t, parse_routing_line (stripStr (orc n a r)) = some (b, t) ∧
        (subAgentKey b).isSome = true) ∧ doneCheck (stripStr (orc n a r)) = false)
    (htask : ∃ b t, parse_routing_line req.task = some (b, t) ∧ (subAgentKey b).isSome = true) :
    (route_task ms enf inv orc now req).response =
      Except.ok { ok := true, workflow_id := ensure_workflow_id req now, step := ms + 1,
                  message := some (stoppedMsg ms), done := true } ∧
    (route_task ms enf inv orc now req).primaryCalls = ms ∧
    (route_task ms enf inv orc now req).events.getLast? =
      some (.stopped_max_steps (ensure_workflow_id req now) (stoppedMsg ms)) := by
  have hrun := routeLoop_never_done ms enf inv orc (ensure_workflow_id req now) hinv horc
    ms 1 0 0 req.task htask
  have harith : 1 + ms = ms + 1 := by omega
  rw [harith] at hrun
  simp only [route_task, hnd, Bool.false_eq_true, if_false, hauto]
  exact hrun

/-- Witness for C1's amended theorem at `MAX_STEPS = 1` with the demo
hooks. -/
theorem auto_loop_cap_behaviour_witness :
    (effective_auto_loop c1req = true ∧ doneCheck (stripStr c1req.task) = false ∧
     parse_routing_line c1req.task = some ("FileCreator", "go") ∧
     (subAgentKey "FileCreator").isSome = true ∧
     parse_routing_line (stripStr (constOrc 0 "a" "r")) = some ("FileCreator", "again") ∧
     doneCheck (stripStr (constOrc 0 "a" "r")) = false ∧ constInv 0 "k" "g" ≠ "") ∧
    ((route_task 1 true constInv constOrc 0 c1req).response =
      Except.ok { ok := true, workflow_id := ensure_workflow_id c1req 0, step := 1 + 1,
                  message := some (stoppedMsg 1), done := true } ∧
     (route_task 1 true constInv constOrc 0 c1req).primaryCalls = 1 ∧
     (route_task 1 true constInv constOrc 0 c1req).events.getLast? =
       some (.stopped_max_steps (ensure_workflow_id c1req 0) (stoppedMsg 1))) :=
  ⟨⟨by decide, by decide, by decide, by decide, by decide, by decide, by decide⟩,
   auto_loop_cap_behaviour 1 true constInv constOrc 0 c1req (by decide) (by decide)
     (fun n k g => by unfold constInv; decide)
     (fun n a r => ⟨⟨"FileCreator", "again", by unfold constOrc; decide,
       by decide⟩, by unfold constOrc; decide⟩)
     ⟨"FileCreator", "go", by decide, by decide⟩⟩

/-! ## Claim C9: the parse/guard round-trip -/

/-- The element `dropWhile` stops on fails the predicate. -/
theorem dropWhile_head_false (p : Char → Bool) (l : List Char) (c : Char) (r : List Char)
    (h : l.dropWhile p = c :: r) : p c = false := by
  induction l with
  | nil => simp [List.dropWhile] at h
  | cons x xs ih =>
    rw [List.dropWhile_cons] at h
    by_cases hx : p x = true
    · rw [if_pos hx] at h
      exact ih h
    · rw [if_neg hx] at h
      cases h
      simpa using hx

/-- `dropWhile` keeps something as soon as one element fails the
predicate. -/
theorem dropWhile_ne_nil (p : Char → Bool) (l : List Char) (h : ∃ y ∈ l, p y = false) :
    l.dropWhile p ≠ [] := by
  induction l with
  | nil => obtain ⟨y, hy, -⟩ := h; cases hy
  | cons x xs ih =>
    obtain ⟨y, hy, hpy⟩ := h
    rw [List.dropWhile_cons]
    by_cases hx : p x = true
    · rw [if_pos hx]
      rcases List.mem_cons.1 hy with rfl | hy'
      · rw [hx] at hpy; cases hpy
      · exact ih ⟨y, hy', hpy⟩
    · rw [if_neg hx]
      simp

/-- `takeWhile`/`dropWhile` over an append whose left part contains a
stopping element never look at the right part. -/
theorem takeWhile_append_stop (p : Char → Bool) :
    ∀ (l₁ l₂ : List Char), (∃ x ∈ l₁, p x = false) →
    (l₁ ++ l₂).takeWhile p = l₁.takeWhile p ∧
    (l₁ ++ l₂).dropWhile p = l₁.dropWhile p ++ l₂ := by
  intro l₁
  induction l₁ with
  | nil =>
    rintro l₂ ⟨x, hx, -⟩
    cases hx
  | cons c r ih =>
    rintro l₂ ⟨x, hx, hpx⟩
    by_cases hc : p c = true
    · rcases List.mem_cons.1 hx with rfl | hx'
      · rw [hc] at hpx; cases hpx
      · have hr := ih l₂ ⟨x, hx', hpx⟩
        constructor
        · simp only [List.cons_append, List.takeWhile_cons, hc, if_true, hr.1]
        · simp only [List.cons_append, List.dropWhile_cons, hc, if_true, hr.2]
    · have hcf : p c = false := by simpa using hc
      constructor
      · simp [List.takeWhile_cons, hcf]
      · simp [List.dropWhile_cons, hcf]

/-- Stripping fixes a list whose first and last characters are not
whitespace. -/
theorem stripL_eq_self (l : List Char)
    (h1 : ∀ c, l.head? = some c → isWS c = false)
    (h2 : ∀ c, l.getLast? = some c → isWS c = false) : stripL l = l := by
  cases l with
  | nil => rfl
  | cons c r =>
    have hc := h1 c rfl
    unfold stripL dropTrailing
    rw [List.dropWhile_cons, if_neg (by simp [hc])]
    cases hrev : (c :: r).reverse with
    | nil => simp at hrev
    | cons y ys =>
      have hy : (c :: r).getLast? = some y := by
        rw [← List.head?_reverse, hrev]
        rfl
      have hyw := h2 y hy
      have hkeep : List.dropWhile isWS (y :: ys) = y :: ys := by
        rw [List.dropWhile_cons, if_neg (by simp [hyw])]
      rw [hkeep, List.reverse_eq_iff]
      exact hrev.symm

/-- The last character of a stripped list is never whitespace. -/
theorem stripL_getLast_not_WS (l : List Char) (c : Char)
    (h : (stripL l).getLast? = some c) : isWS c = false := by
  unfold stripL dropTrailing at h
  rw [List.getLast?_reverse] at h
  cases hdw : ((l.dropWhile isWS).reverse.dropWhile isWS) with
  | nil => rw [hdw] at h; cases h
  | cons y ys =>
    rw [hdw] at h
    cases h
    exact dropWhile_head_false isWS _ _ _ hdw

/-- The last element of a non-empty suffix is the last element of the
whole list. -/
theorem getLast?_of_suffix (l₁ l₂ : List Char) (c : Char)
    (hs : l₁ <:+ l₂) (h : l₁.getLast? = some c) : l₂.getLast? = some c := by
  obtain ⟨pre, rfl⟩ := hs
  rw [List.getLast?_append, h]
  rfl

/-- The instruction part produced by `parseCore` is a non-empty suffix of
the input. -/
theorem parseCore_body (l A B : List Char) (h : parseCore l = some (A, B)) :
    B ≠ [] ∧ B <:+ l := by
  unfold parseCore at h
  cases heq : l.dropWhile isWS with
  | nil => rw [heq] at h; cases h
  | cons c rest =>
    rw [heq] at h
    by_cases hca : c.isAlpha = true
    · simp only [hca, if_true] at h
      by_cases hre : (rest.takeWhile isNameChar).isEmpty = true
      · simp only [hre, if_true] at h
        cases h
      · have hre' : (rest.takeWhile isNameChar).isEmpty = false := by simpa using hre
        simp only [hre', Bool.false_eq_true, if_false] at h
        split at h
        · next rest3 heq2 =>
          by_cases hbe : (rest3.dropWhile isWS).isEmpty = true
          · simp only [hbe, if_true] at h
            cases h
          · have hbe' : (rest3.dropWhile isWS).isEmpty = false := by simpa using hbe
            simp only [hbe', Bool.false_eq_true, if_false, Option.some.injEq,
              Prod.mk.injEq] at h
            obtain ⟨hA, hB⟩ := h
            have hs1 : rest3.dropWhile isWS <:+ rest3 := List.dropWhile_suffix isWS
            have hs2 : rest3 <:+ ':' :: rest3 := List.suffix_cons ':' rest3
            have hs3 : (':' :: rest3 : List Char) <:+ rest.dropWhile isNameChar := by
              rw [← heq2]
              exact List.dropWhile_suffix isWS
            have hs4 : rest.dropWhile isNameChar <:+ rest :=
              List.dropWhile_suffix isNameChar
            have hs5 : rest <:+ c :: rest := List.suffix_cons c rest
            have hs6 : (c :: rest : List Char) <:+ l := by
              rw [← heq]
              exact List.dropWhile_suffix isWS
            constructor
            · rw [← hB]
              simpa using hbe'
            · rw [← hB]
              exact ((((hs1.trans hs2).trans hs3).trans hs4).trans hs5).trans hs6
        · cases h
    · simp only [hca, Bool.false_eq_true, if_false] at h
      cases h

/-- A prefix of an append that fits inside the left part is a prefix of
the left part. -/
theorem prefix_of_append_le (m x y : List Char) (h : m <+: x ++ y)
    (hl : m.length ≤ x.length) : m <+: x := by
  have hm : m = List.take m.length (x ++ y) := List.prefix_iff_eq_take.1 h
  rw [List.take_append_eq_append_take, Nat.sub_eq_zero_of_le hl, List.take_zero,
    List.append_nil] at hm
  rw [hm]
  exact List.take_prefix m.length x

/-- First-occurrence search past an occurrence-free prefix `Q` finds the
marker exactly at the seam. -/
theorem afterM_concat (m : List Char) (hm : m ≠ []) :
    ∀ (Q t : List Char),
    (∀ R ∈ Q.tails, R ≠ [] → m.isPrefixOf (R ++ m) = false) →
    afterM m (Q ++ (m ++ t)) = some t := by
  intro Q
  induction Q with
  | nil =>
    intro t _h
    cases hmc : m with
    | nil => exact absurd hmc hm
    | cons x m' =>
      rw [← hmc]
      show afterM m (m ++ t) = some t
      cases hmt : m ++ t with
      | nil => rw [hmc] at hmt; cases hmt
      | cons z zs =>
        unfold afterM
        rw [← hmt]
        have hpre : m.isPrefixOf (m ++ t) = true :=
          List.isPrefixOf_iff_prefix.2 ⟨t, rfl⟩
        rw [hmt] at hpre ⊢
        rw [hpre]
        simp only [if_true]
        rw [← hmt, List.drop_left]
  | cons q Q' ih =>
    intro t hfree
    have hq : m.isPrefixOf ((q :: Q') ++ (m ++ t)) = false := by
      by_contra hcon
      have hpre : m.isPrefixOf ((q :: Q') ++ (m ++ t)) = true := by
        simpa using hcon
      have hmp : m <+: ((q :: Q') ++ m) ++ t := by
        have := List.isPrefixOf_iff_prefix.1 hpre
        rwa [← List.append_assoc] at this
      have hfit : m <+: (q :: Q') ++ m :=
        prefix_of_append_le m _ t hmp (by simp; omega)
      have := hfree (q :: Q') ((List.mem_tails _ _).2 (List.suffix_refl _)) (by simp)
      rw [List.isPrefixOf_iff_prefix.2 hfit] at this
      cases this
    show afterM m (q :: (Q' ++ (m ++ t))) = some t
    unfold afterM
    rw [show ((q :: Q') ++ (m ++ t)) = q :: (Q' ++ (m ++ t)) from rfl] at hq
    rw [hq]
    simp only [Bool.false_eq_true, if_false]
    exact ih t (fun R hR hne =>
      hfree R ((List.mem_tails _ _).2 (((List.mem_tails _ _).1 hR).trans
        (List.suffix_cons q Q'))) hne)

/-- Membership of the static roster is membership of the nine names. -/
theorem roster_cases (a : String) (h : (subAgentKey a).isSome = true) :
    a = "FileCreator" ∨ a = "GitWorkflow" ∨ a = "TestRunner" ∨ a = "FrontendDeveloper" ∨
    a = "BackendDeveloper" ∨ a = "UIDesigner" ∨ a = "SprintPrioritizer" ∨
    a = "RapidPrototyper" ∨ a = "UXResearcher" := by
  unfold subAgentKey at h
  split_ifs at h <;> tauto

/-- Rebuilding a string from its characters is the identity. -/
theorem mk_data (s : String) : String.mk s.data = s := by cases s; rfl

/-- The head of an append with a non-empty left part. -/
theorem head?_append_left (l₁ l₂ : List Char) (c : Char) (h : l₁.head? = some c) :
    (l₁ ++ l₂).head? = some c := by
  cases l₁ with
  | nil => cases h
  | cons x xs => exact h

/-- Running the routing grammar over a well-formed prefix followed by an
arbitrary tail: the name is read entirely inside the prefix (which provides
the stopping colon and a later non-whitespace body character), independent
of the tail. -/
theorem parseCore_prefix_run (c : Char) (Qa tail : List Char)
    (hhead : Qa.head? = some c)
    (hc : isWS c = false) (ha : c.isAlpha = true)
    (hstop : ∃ x ∈ Qa.tail, isNameChar x = false)
    (hrun : Qa.tail.takeWhile isNameChar ≠ [])
    (hD : (Qa.tail.dropWhile isNameChar).head? = some ':')
    (hDy : ∃ y ∈ (Qa.tail.dropWhile isNameChar).tail, isWS y = false) :
    ∃ B2, parseCore (Qa ++ tail) = some (c :: Qa.tail.takeWhile isNameChar, B2) := by
  cases Qa with
  | nil => cases hhead
  | cons c0 Q' =>
    injection hhead with h0
    subst h0
    simp only [List.tail_cons] at hstop hrun hD hDy ⊢
    obtain ⟨hTake, hDrop⟩ := takeWhile_append_stop isNameChar Q' tail hstop
    cases hDc : Q'.dropWhile isNameChar with
    | nil => rw [hDc] at hD; cases hD
    | cons d D' =>
      rw [hDc] at hD hDy
      injection hD with hd
      subst hd
      simp only [List.tail_cons] at hDy
      obtain ⟨hTake2, hDrop2⟩ := takeWhile_append_stop isWS D' tail hDy
      have hbody_ne : D'.dropWhile isWS ≠ [] := dropWhile_ne_nil isWS D' hDy
      refine ⟨D'.dropWhile isWS ++ tail, ?_⟩
      have hshape : ((c0 :: Q') ++ tail) = c0 :: (Q' ++ tail) := rfl
      unfold parseCore
      rw [hshape]
      have h1 : List.dropWhile isWS (c0 :: (Q' ++ tail)) = c0 :: (Q' ++ tail) := by
        rw [List.dropWhile_cons, if_neg (by simp [hc])]
      rw [h1]
      simp only [ha, if_true]
      have hrun' : ((Q' ++ tail).takeWhile isNameChar).isEmpty = false := by
        rw [hTake]
        cases hq : Q'.takeWhile isNameChar with
        | nil => exact absurd hq hrun
        | cons _ _ => rfl
      rw [hrun']
      simp only [Bool.false_eq_true, if_false]
      have hmid : List.dropWhile isWS ((Q' ++ tail).dropWhile isNameChar) =
          ':' :: (D' ++ tail) := by
        rw [hDrop, hDc, List.cons_append, List.dropWhile_cons, if_neg (by decide)]
      simp only [hmid]
      rw [hDrop2]
      have hbe : (D'.dropWhile isWS ++ tail).isEmpty = false := by
        cases hx : D'.dropWhile isWS with
        | nil => exact absurd hx hbody_ne
        | cons _ _ => rfl
      rw [hbe]
      simp only [Bool.false_eq_true, if_false]
      rw [hTake]

/-- One concrete roster case of the round-trip: all facts about the
concrete guarded-instruction preamble are decidable side conditions. -/
theorem roundtrip_case (aS ttl : String) (B : List Char) (c : Char)
    (htitle : ruleTitle aS = some ttl)
    (hBne : B ≠ [])
    (hBlast : ∀ x, B.getLast? = some x → isWS x = false)
    (hhead : (guardPrefix aS ttl).data.head? = some c)
    (hc : isWS c = false) (ha : c.isAlpha = true)
    (hstop : ∃ x ∈ (guardPrefix aS ttl).data.tail, isNameChar x = false)
    (hrun : (guardPrefix aS ttl).data.tail.takeWhile isNameChar ≠ [])
    (hD : ((guardPrefix aS ttl).data.tail.dropWhile isNameChar).head? = some ':')
    (hDy : ∃ y ∈ ((guardPrefix aS ttl).data.tail.dropWhile isNameChar).tail, isWS y = false)
    (hfst : aS.data = c :: (guardPrefix aS ttl).data.tail.takeWhile isNameChar)
    (hfree : ∀ R ∈ (guardPrefix aS ttl).data.tails, R ≠ [] →
        ("\nTask: ".data.isPrefixOf (R ++ "\nTask: ".data)) = false) :
    extractAgent (guard_instruction aS (String.mk B)) = some aS ∧
    extractTaskText (guard_instruction aS (String.mk B)) = some (String.mk B) := by
  have hgdata : (guard_instruction aS (String.mk B)).data =
      (guardPrefix aS ttl).data ++ ("\nTask: ".data ++ B) := by
    unfold guard_instruction
    rw [htitle]
    have hseam : ("\nTask: " : String).data = ("\n" : String).data ++ ("Task: " : String).data := by
      decide
    simp [String.data_append, List.append_assoc, hseam]
  have hBlastq : ∃ y, B.getLast? = some y := by
    cases hBL : B.getLast? with
    | none => exact absurd (List.getLast?_eq_none_iff.1 hBL) hBne
    | some y => exact ⟨y, rfl⟩
  constructor
  · -- agent half
    have hstrip : stripL (guard_instruction aS (String.mk B)).data =
        (guard_instruction aS (String.mk B)).data := by
      apply stripL_eq_self
      · intro x hx
        rw [hgdata, head?_append_left _ _ c hhead] at hx
        injection hx with hx
        rw [← hx]
        exact hc
      · intro x hx
        obtain ⟨y, hy⟩ := hBlastq
        have hsfx : B <:+ (guard_instruction aS (String.mk B)).data := by
          rw [hgdata]
          exact ⟨(guardPrefix aS ttl).data ++ "\nTask: ".data, by simp [List.append_assoc]⟩
        rw [getLast?_of_suffix _ _ y hsfx hy] at hx
        injection hx with hx
        rw [← hx]
        exact hBlast y hy
    obtain ⟨B2, hB2⟩ := parseCore_prefix_run c (guardPrefix aS ttl).data
      ("\nTask: ".data ++ B) hhead hc ha hstop hrun hD hDy
    unfold extractAgent parse_routing_line
    rw [hstrip, hgdata, hB2, ← hfst]
    simp [mk_data]
  · -- task-text half
    unfold extractTaskText afterMarker
    rw [hgdata, afterM_concat "\nTask: ".data (by decide) _ _ hfree]
    rfl

set_option maxRecDepth 40000 in
/-- C9: parsing `"<Agent>: <text>"` with the routing grammar (for a
rostered agent) and re-extracting the agent (by the routing grammar) and
the task text (the part after the `Task:` marker) from the guarded
instruction built from the parse result yields the identical pair. -/
theorem parse_guard_roundtrip (task a t : String)
    (hparse : parse_routing_line task = some (a, t))
    (hros : (subAgentKey a).isSome = true) :
    extractAgent (guard_instruction a t) = some a ∧
    extractTaskText (guard_instruction a t) = some t := by
  have hPC : ∃ A B, parseCore (stripL task.data) = some (A, B) ∧
      a = String.mk A ∧ t = String.mk B := by
    unfold parse_routing_line at hparse
    cases hpc : parseCore (stripL task.data) with
    | none => rw [hpc] at hparse; cases hparse
    | some p =>
      obtain ⟨p1, p2⟩ := p
      rw [hpc] at hparse
      simp only [Option.map_some', Option.some.injEq, Prod.mk.injEq] at hparse
      exact ⟨p1, p2, rfl, hparse.1.symm, hparse.2.symm⟩
  obtain ⟨A, B, hpc, hA, hT⟩ := hPC
  subst hA
  subst hT
  have hBfacts := parseCore_body _ _ _ hpc
  have hBne : B ≠ [] := by
    intro hB
    exact hBfacts.1 (by simpa using congrArg String.data (congrArg String.mk hB))
  have hBlast : ∀ x, B.getLast? = some x → isWS x = false := by
    intro x hx
    exact stripL_getLast_not_WS task.data x
      (getLast?_of_suffix _ _ x hBfacts.2 (by simpa using hx))
  rcases roster_cases _ hros with h | h | h | h | h | h | h | h | h
  · rw [h]
    exact roundtrip_case "FileCreator" "FileCreator — File Ops Policy" B 'F' (by decide)
      hBne hBlast (by decide) (by decide) (by decide) (by decide) (by decide) (by decide)
      (by decide) (by decide) (by decide)
  · rw [h]
    exact roundtrip_case "GitWorkflow" "GitWorkflow — Safe Git Policy" B 'G' (by decide)
      hBne hBlast (by decide) (by decide) (by decide) (by decide) (by decide) (by decide)
      (by decide) (by decide) (by decide)
  · rw [h]
    exact roundtrip_case "TestRunner" "TestRunner — Testing Policy" B 'T' (by decide)
      hBne hBlast (by decide) (by decide) (by decide) (by decide) (by decide) (by decide)
      (by decide) (by decide) (by decide)
  · rw [h]
    exact roundtrip_case "FrontendDeveloper" "FrontendDeveloper — UI Policy" B 'F' (by decide)
      hBne hBlast (by decide) (by decide) (by decide) (by decide) (by decide) (by decide)
      (by decide) (by decide) (by decide)
  · rw [h]
    exact roundtrip_case "BackendDeveloper" "BackendDeveloper — API Policy" B 'B' (by decide)
      hBne hBlast (by decide) (by decide) (by decide) (by decide) (by decide) (by decide)
      (by decide) (by decide) (by decide)
  · rw [h]
    exact roundtrip_case "UIDesigner" "UIDesigner — Design Artifacts Policy" B 'U' (by decide)
      hBne hBlast (by decide) (by decide) (by decide) (by decide) (by decide) (by decide)
      (by decide) (by decide) (by decide)
  · rw [h]
    exact roundtrip_case "SprintPrioritizer" "SprintPrioritizer — Planning Policy" B 'S'
      (by decide) hBne hBlast (by decide) (by decide) (by decide) (by decide) (by decide)
      (by decide) (by decide) (by decide) (by decide)
  · rw [h]
    exact roundtrip_case "RapidPrototyper" "RapidPrototyper — Prototype Policy" B 'R'
      (by decide) hBne hBlast (by decide) (by decide) (by decide) (by decide) (by decide)
      (by decide) (by decide) (by decide) (by decide)
  · rw [h]
    exact roundtrip_case "UXResearcher" "UXResearcher — Research Artifacts Policy" B 'U'
      (by decide) hBne hBlast (by decide) (by decide) (by decide) (by decide) (by decide)
      (by decide) (by decide) (by decide) (by decide)

/-- Witness for C9 at the concrete task `"FileCreator: build it"`. -/
theorem parse_guard_roundtrip_witness :
    (parse_routing_line "FileCreator: build it" = some ("FileCreator", "build it") ∧
     (subAgentKey "FileCreator").isSome = true) ∧
    (extractAgent (guard_instruction "FileCreator" "build it") = some "FileCreator" ∧
     extractTaskText (guard_instruction "FileCreator" "build it") = some "build it") :=
  ⟨⟨by decide, by decide⟩,
   parse_guard_roundtrip "FileCreator: build it" "FileCreator" "build it"
     (by decide) (by decide)⟩

end Orchestrator
